import Mathlib

/-!
Shallow embedding of the availability-and-selection core of the
capitolmapping repository: the period data model, the availability
resolver, the 4-week gap finder, the CSV import validator, and the
registry merge, together with theorems settling the specification
claims about them.

Date-valued computation in the source goes through the JavaScript
Date object (string parsing, ordering, day arithmetic, ISO printing).
That platform type is modelled here by a calendar triple Ymd with the
observable operations the source uses: chronological order, +1 day /
+27 day arithmetic, and canonical YYYY-MM-DD printing and parsing.
-/

namespace Capitol

/-! ### ASCII string utilities modelling the JavaScript string methods -/

/-- Whitespace recognised by the model of the JavaScript trim method. -/
def isWsChar (c : Char) : Bool := c = ' ' || c = '\t' || c = '\n' || c = '\r'

/-- Model of the JavaScript trim method on raw character lists. -/
def trimChars (l : List Char) : List Char :=
  ((l.dropWhile isWsChar).reverse.dropWhile isWsChar).reverse

/-- Model of the JavaScript trim method. -/
def strTrim (s : String) : String := ⟨trimChars s.data⟩

/-- Auxiliary splitter: split a character list at every separator. -/
def splitCharAux (sep : Char) : List Char → List Char → List String
  | [], cur => [⟨cur.reverse⟩]
  | c :: cs, cur =>
    if c = sep then ⟨cur.reverse⟩ :: splitCharAux sep cs []
    else splitCharAux sep cs (c :: cur)

/-- Model of the JavaScript split method on a one-character separator:
always yields at least one piece, never drops empty pieces. -/
def splitChar (sep : Char) (s : String) : List String := splitCharAux sep s.data []

/-- ASCII lower-casing of one character, as toLowerCase does on ASCII. -/
def lowerChar (c : Char) : Char :=
  if 65 ≤ c.toNat ∧ c.toNat ≤ 90 then Char.ofNat (c.toNat + 32) else c

/-- Model of the JavaScript toLowerCase method (ASCII range). -/
def asciiLower (s : String) : String := ⟨s.data.map lowerChar⟩

/-- Is the character an ASCII decimal digit. -/
def isDig (c : Char) : Bool := 48 ≤ c.toNat && c.toNat ≤ 57

/-- Numeric value of an ASCII digit character. -/
def dv (c : Char) : ℕ := c.toNat - 48

/-- The ASCII digit character for a value below ten. -/
def digit : ℕ → Char
  | 0 => '0' | 1 => '1' | 2 => '2' | 3 => '3' | 4 => '4'
  | 5 => '5' | 6 => '6' | 7 => '7' | 8 => '8' | _ => '9'

/-- Code-unit lexicographic comparison of character lists, the order a
localeCompare-based sort callback induces on plain ASCII strings. -/
def chListLe : List Char → List Char → Bool
  | [], _ => true
  | _ :: _, [] => false
  | a :: as, b :: bs =>
    a.toNat < b.toNat || (a.toNat == b.toNat && chListLe as bs)

/-- String comparison used by the gap finder sort callback. -/
def strLeB (a b : String) : Bool := chListLe a.data b.data

/-! ### Calendar model of the JavaScript Date object -/

/-- A calendar date triple (UTC), the observable content of a Date. -/
structure Ymd where
  year : ℕ
  month : ℕ
  day : ℕ
deriving DecidableEq, Repr

/-- Gregorian leap-year rule. -/
def isLeapYear (y : ℕ) : Bool := (y % 4 == 0 && y % 100 != 0) || y % 400 == 0

/-- Days in a month of the Gregorian calendar. -/
def daysInMonth (y m : ℕ) : ℕ :=
  if m = 2 then (if isLeapYear y then 29 else 28)
  else if m = 4 ∨ m = 6 ∨ m = 9 ∨ m = 11 then 30
  else 31

/-- A real calendar date: month in range, day within the month. -/
def Ymd.valid (t : Ymd) : Bool :=
  1 ≤ t.month && t.month ≤ 12 && 1 ≤ t.day && t.day ≤ daysInMonth t.year t.month

/-- Order-reflecting numeric key of a date triple; for valid dates the
chronological order of the underlying Date timestamps agrees with the
order of keys. -/
def Ymd.key (t : Ymd) : ℕ := t.year * 10000 + t.month * 100 + t.day

/-- The next calendar day, as setDate(getDate() + 1) computes it. -/
def succDate (t : Ymd) : Ymd :=
  if t.day < daysInMonth t.year t.month then ⟨t.year, t.month, t.day + 1⟩
  else if t.month < 12 then ⟨t.year, t.month + 1, 1⟩
  else ⟨t.year + 1, 1, 1⟩

/-- Calendar-day addition, as setDate(getDate() + k) computes it. -/
def addDays (t : Ymd) : ℕ → Ymd
  | 0 => t
  | k + 1 => succDate (addDays t k)

/-- Two zero-padded decimal digits (of the value modulo 100). -/
def pad2 (n : ℕ) : List Char := [digit (n / 10 % 10), digit (n % 10)]

/-- Four zero-padded decimal digits (of the value modulo 10000). -/
def pad4 (n : ℕ) : List Char :=
  [digit (n / 1000 % 10), digit (n / 100 % 10), digit (n / 10 % 10), digit (n % 10)]

/-- Character content of the canonical YYYY-MM-DD rendering, the date
part of toISOString output. -/
def printYmdChars (t : Ymd) : List Char :=
  pad4 t.year ++ '-' :: (pad2 t.month ++ '-' :: pad2 t.day)

/-- Canonical YYYY-MM-DD rendering of a date. -/
def printYmd (t : Ymd) : String := ⟨printYmdChars t⟩

/-- Recognise the exact ten-character YYYY-MM-DD shape. -/
def parseIsoShape : List Char → Option Ymd
  | [y1, y2, y3, y4, h1, m1, m2, h2, d1, d2] =>
    if h1 = '-' && h2 = '-' &&
       (isDig y1 && isDig y2 && isDig y3 && isDig y4 &&
        isDig m1 && isDig m2 && isDig d1 && isDig d2) then
      some ⟨dv y1 * 1000 + dv y2 * 100 + dv y3 * 10 + dv y4,
            dv m1 * 10 + dv m2, dv d1 * 10 + dv d2⟩
    else none
  | _ => none

/-- Decimal value of a digit-character list. -/
def digitsVal (l : List Char) : ℕ := l.foldl (fun acc c => acc * 10 + dv c) 0

/-- Recognise the M/D/YYYY and MM/DD/YYYY shapes. -/
def parseSlashShape (l : List Char) : Option Ymd :=
  match splitCharAux '/' l [] with
  | [ms, ds, ys] =>
    if !ms.data.isEmpty && ms.data.length ≤ 2 && ms.data.all isDig &&
       !ds.data.isEmpty && ds.data.length ≤ 2 && ds.data.all isDig &&
       ys.data.length == 4 && ys.data.all isDig then
      some ⟨digitsVal ys.data, digitsVal ms.data, digitsVal ds.data⟩
    else none
  | _ => none

/-- Modelled from the platform: the JavaScript Date constructor applied
to a date string, restricted to the formats the source documents
(YYYY-MM-DD, MM/DD/YYYY, M/D/YYYY); yields the calendar triple exactly
when the text denotes a real calendar date, and none where the
constructor yields an Invalid Date. -/
def jsParseDate (s : String) : Option Ymd :=
  match (parseIsoShape s.data).orElse (fun _ => parseSlashShape s.data) with
  | some t => if t.valid then some t else none
  | none => none

/-! ### The period data model (lib/types.ts) -/

/-- The closed status enumeration. -/
inductive AvailabilityStatus where
  | available
  | sold
  | hold
  | pending
deriving DecidableEq, Repr

open AvailabilityStatus

/-- One booking interval for one unit. -/
structure AvailabilityPeriod where
  startDate : String
  endDate : String
  status : AvailabilityStatus
  client : Option String := none
  notes : Option String := none
deriving DecidableEq, Repr

/-- The per-unit aggregate. -/
structure UnitAvailability where
  unitId : String
  periods : List AvailabilityPeriod
  lastUpdated : String
deriving DecidableEq, Repr

/-! ### The availability resolver (lib/availability.ts) -/

/-- Does the period inclusively contain the canonical date string, by
the comparison the source performs. -/
def periodContains (period : AvailabilityPeriod) (dateStr : String) : Bool :=
  strLeB period.startDate dateStr && strLeB dateStr period.endDate

/-- getCurrentAvailability: the first period in list order containing
the query date, or none. The source converts its Date argument to the
canonical date string before comparing; the model receives that
canonical string. -/
def getCurrentAvailability (availability : Option UnitAvailability)
    (dateStr : String) : Option AvailabilityPeriod :=
  match availability with
  | none => none
  | some av =>
    if av.periods.length = 0 then none
    else av.periods.find? (fun period => periodContains period dateStr)

/-- The severity table of the range resolver. -/
def statusPriority : AvailabilityStatus → ℕ
  | sold => 4
  | hold => 3
  | pending => 2
  | available => 1

/-- Does the period overlap the query range, by the inclusive interval
test the source performs on canonical date strings. -/
def periodOverlaps (period : AvailabilityPeriod) (startDate endDate : String) : Bool :=
  strLeB period.startDate endDate && strLeB startDate period.endDate

/-- Loop body of getAvailabilityForRange. -/
def worstStatusStep (startDate endDate : String) (worst : AvailabilityStatus)
    (period : AvailabilityPeriod) : AvailabilityStatus :=
  if periodOverlaps period startDate endDate &&
     statusPriority worst < statusPriority period.status then
    period.status
  else worst

/-- getAvailabilityForRange: worst status over overlapping periods. -/
def getAvailabilityForRange (availability : Option UnitAvailability)
    (startDate endDate : String) : AvailabilityStatus :=
  match availability with
  | none => available
  | some av =>
    if av.periods.length = 0 then available
    else av.periods.foldl (worstStatusStep startDate endDate) available

/-! ### The gap finder (lib/availability.ts) -/

/-- Is the period blocking for the gap finder (sold or hold). -/
def isBlocking (p : AvailabilityPeriod) : Bool :=
  p.status == sold || p.status == hold

/-- A proposed booking window. -/
structure BookingWindow where
  startDate : String
  endDate : String
deriving DecidableEq, Repr

/-- generate4WeekPeriod: the 28-day window starting at a date. -/
def generate4WeekPeriod (startFrom : Ymd) : BookingWindow :=
  ⟨printYmd startFrom, printYmd (addDays startFrom 27)⟩

/-- Date comparison check < period-date where the period date text may
fail to parse; an Invalid Date compares false, as NaN does. -/
def ymdLtOpt (c : Ymd) (o : Option Ymd) : Bool :=
  match o with
  | some v => c.key < v.key
  | none => false

/-- Date comparison check ≤ period-date with the same NaN convention. -/
def ymdLeOpt (c : Ymd) (o : Option Ymd) : Bool :=
  match o with
  | some v => c.key ≤ v.key
  | none => false

/-- The scan loop of getNextAvailablePeriod over the sorted blocking
periods, carrying the cursor date. -/
def gapScan : List AvailabilityPeriod → Ymd → BookingWindow
  | [], checkDate => generate4WeekPeriod checkDate
  | period :: rest, checkDate =>
    let periodStart := jsParseDate period.startDate
    let periodEnd := jsParseDate period.endDate
    if ymdLtOpt checkDate periodStart && ymdLtOpt (addDays checkDate 27) periodStart then
      ⟨printYmd checkDate, printYmd (addDays checkDate 27)⟩
    else
      gapScan rest
        (if ymdLeOpt checkDate periodEnd then
          match periodEnd with
          | some e => succDate e
          | none => checkDate
        else checkDate)

/-- Stable insertion of a period into a list ordered by start-date
text, used to model the sort callback of the source. -/
def insertByStart (x : AvailabilityPeriod) :
    List AvailabilityPeriod → List AvailabilityPeriod
  | [] => [x]
  | y :: ys =>
    if strLeB y.startDate x.startDate then y :: insertByStart x ys
    else x :: y :: ys

/-- The sort by start-date text applied to the blocking periods; a
stable comparison sort, as Array sort with a localeCompare callback. -/
def sortByStart : List AvailabilityPeriod → List AvailabilityPeriod
  | [] => []
  | y :: ys => insertByStart y (sortByStart ys)

/-- getNextAvailablePeriod: the next open 4-week window. -/
def getNextAvailablePeriod (availability : Option UnitAvailability)
    (startFrom : Ymd) : Option BookingWindow :=
  match availability with
  | none => some (generate4WeekPeriod startFrom)
  | some av =>
    if av.periods.length = 0 then some (generate4WeekPeriod startFrom)
    else
      let sortedPeriods := sortByStart (av.periods.filter isBlocking)
      some (gapScan sortedPeriods startFrom)

/-! ### The import validator (components/AvailabilityImport.tsx, parseCSV) -/

/-- A validated import row. -/
structure ParsedRow where
  unitId : String
  startDate : String
  endDate : String
  status : AvailabilityStatus
  client : Option String := none
  notes : Option String := none
deriving DecidableEq, Repr

/-- A parse or validation error, with its row number. -/
structure ParseError where
  row : ℕ
  message : String
deriving DecidableEq, Repr

/-- isValidDate: does the text parse as a real calendar date. -/
def isValidDate (dateStr : String) : Bool := (jsParseDate dateStr).isSome

/-- normalizeDate: canonical YYYY-MM-DD form of a parseable date text;
the source would raise on an unparseable input, modelled as the empty
string on the unreachable branch. -/
def normalizeDate (dateStr : String) : String :=
  match jsParseDate dateStr with
  | some t => printYmd t
  | none => ""

/-- Quote-aware field splitting of one data line: a double quote
toggles quoting without being emitted, an unquoted comma ends the
field, every field is trimmed. -/
def splitQuotedAux : List Char → List Char → Bool → List String
  | [], current, _ => [⟨trimChars current.reverse⟩]
  | c :: cs, current, inQuotes =>
    if c = '"' then splitQuotedAux cs current (!inQuotes)
    else if c = ',' && !inQuotes then
      ⟨trimChars current.reverse⟩ :: splitQuotedAux cs [] inQuotes
    else splitQuotedAux cs (c :: current) inQuotes

/-- Field values of one data line. -/
def splitQuoted (line : String) : List String := splitQuotedAux line.data [] false

/-- The replace of every double quote by nothing. -/
def stripQuotes (s : String) : String := ⟨s.data.filter (fun c => c ≠ '"')⟩

/-- Rendering of a possibly-undefined field in an error message, as a
template literal renders it. -/
def optStr (o : Option String) : String := o.getD "undefined"

/-- The status literals accepted case-insensitively. -/
def statusOfString (s : String) : Option AvailabilityStatus :=
  if s = "available" then some available
  else if s = "sold" then some sold
  else if s = "hold" then some hold
  else if s = "pending" then some pending
  else none

/-- Empty-string-to-undefined coercion used for the optional fields. -/
def orUndefined (o : Option String) : Option String :=
  match o with
  | some "" => none
  | x => x

/-- The resolved required and optional column indices of the header. -/
structure HeaderIdx where
  unitIdIdx : ℕ
  startIdx : ℕ
  endIdx : ℕ
  statusIdx : ℕ
  clientIdx : Option ℕ
  notesIdx : Option ℕ
deriving DecidableEq, Repr

/-- Extraction of one field of a data line: the value at the resolved
column index, with quote characters removed, undefined when the row is
shorter than the header. -/
def rowField (values : List String) (i : ℕ) : Option String :=
  (values.get? i).map stripQuotes

/-- The body of the parse loop for one data line: skip a blank line,
otherwise run the ordered validation chain and yield either one error
or one validated row. -/
def parseLine (unitIds : List String) (idx : HeaderIdx) (rowNum : ℕ)
    (rawLine : String) : Option (ParsedRow ⊕ ParseError) :=
  let line := strTrim rawLine
  if line = "" then none
  else
    let values := splitQuoted line
    let unitId := rowField values idx.unitIdIdx
    let startDate := rowField values idx.startIdx
    let endDate := rowField values idx.endIdx
    let status := (rowField values idx.statusIdx).map asciiLower
    let client :=
      match idx.clientIdx with
      | some j => rowField values j
      | none => none
    let notes :=
      match idx.notesIdx with
      | some j => rowField values j
      | none => none
    if unitId.getD "" = "" then
      some (.inr ⟨rowNum, "Missing unit ID"⟩)
    else if !(unitIds.contains (unitId.getD "")) then
      some (.inr ⟨rowNum, "Unknown unit ID: " ++ unitId.getD ""⟩)
    else if startDate.getD "" = "" || !isValidDate (startDate.getD "") then
      some (.inr ⟨rowNum, "Invalid start date: " ++ optStr startDate⟩)
    else if endDate.getD "" = "" || !isValidDate (endDate.getD "") then
      some (.inr ⟨rowNum, "Invalid end date: " ++ optStr endDate⟩)
    else
      match status.bind statusOfString with
      | none =>
        some (.inr ⟨rowNum,
          "Invalid status: " ++ optStr status ++
          ". Must be: available, sold, hold, or pending"⟩)
      | some st =>
        some (.inl
          { unitId := unitId.getD ""
            startDate := normalizeDate (startDate.getD "")
            endDate := normalizeDate (endDate.getD "")
            status := st
            client := orUndefined client
            notes := orUndefined notes })

/-- The data-row loop: each line is processed independently, outputs
kept in line order; the line at index i carries row number i + 1. -/
def processRows (unitIds : List String) (idx : HeaderIdx) :
    ℕ → List String → List ParsedRow × List ParseError
  | _, [] => ([], [])
  | i, l :: ls =>
    let rest := processRows unitIds idx (i + 1) ls
    match parseLine unitIds idx (i + 1) l with
    | none => rest
    | some (.inl row) => (row :: rest.1, rest.2)
    | some (.inr err) => (rest.1, err :: rest.2)

/-- Does the header field name one of the unit-id column synonyms. -/
def isUnitIdCol (h : String) : Bool :=
  h == "unit_id" || h == "unitid" || h == "unit id" || h == "id"

/-- Does the header field name one of the start-date column synonyms. -/
def isStartCol (h : String) : Bool :=
  h == "start_date" || h == "startdate" || h == "start" || h == "from"

/-- Does the header field name one of the end-date column synonyms. -/
def isEndCol (h : String) : Bool :=
  h == "end_date" || h == "enddate" || h == "end" || h == "to"

/-- Does the header field name one of the status column synonyms. -/
def isStatusCol (h : String) : Bool := h == "status" || h == "availability"

/-- Does the header field name one of the client column synonyms. -/
def isClientCol (h : String) : Bool :=
  h == "client" || h == "advertiser" || h == "customer"

/-- Does the header field name one of the notes column synonyms. -/
def isNotesCol (h : String) : Bool := h == "notes" || h == "comments"

/-- The trimmed lower-case header fields of the first line. -/
def headerFields (text : String) : List String :=
  (splitChar ',' (asciiLower ((splitChar '\n' (strTrim text)).headD ""))).map strTrim

/-- The structural error reported when a required column is missing. -/
def missingColumnsError : ParseError :=
  ⟨1, "Missing required columns. Expected: unit_id, start_date, end_date, status"⟩

/-- parseCSV: resolve header columns, abort with a single structural
error when a required column is missing, otherwise validate every data
row. -/
def parseCSV (unitIds : List String) (text : String) :
    List ParsedRow × List ParseError :=
  let lines := splitChar '\n' (strTrim text)
  let header := headerFields text
  match header.findIdx? isUnitIdCol, header.findIdx? isStartCol,
      header.findIdx? isEndCol, header.findIdx? isStatusCol with
  | some unitIdIdx, some startIdx, some endIdx, some statusIdx =>
    processRows unitIds
      ⟨unitIdIdx, startIdx, endIdx, statusIdx,
        header.findIdx? isClientCol, header.findIdx? isNotesCol⟩
      1 (lines.drop 1)
  | _, _, _, _ => ([], [missingColumnsError])

/-! ### The merge (AvailabilityImport.tsx handleImport and the page's
handleAvailabilityImport) -/

/-- The session registry: unit id to aggregate, absent ids mapped to
none, as Map get yields undefined. -/
def Registry := String → Option UnitAvailability

/-- One step of handleImport's grouping: push the row's period onto the
existing batch entry or create the entry. -/
def importStep (now : String) (m : Registry) (row : ParsedRow) : Registry :=
  let period : AvailabilityPeriod :=
    { startDate := row.startDate
      endDate := row.endDate
      status := row.status
      client := row.client
      notes := row.notes }
  fun k =>
    if k = row.unitId then
      match m row.unitId with
      | some ua => some { ua with periods := ua.periods ++ [period] }
      | none => some ⟨row.unitId, [period], now⟩
    else m k

/-- handleImport: group the validated rows by unit id into a fresh
availability map, stamping lastUpdated with the import time. -/
def buildAvailabilityMap (rows : List ParsedRow) (now : String) : Registry :=
  rows.foldl (importStep now) (fun _ => none)

/-- handleAvailabilityImport: merge the imported map into the previous
registry by setting every imported key. -/
def mergeRegistry (prev imported : Registry) : Registry :=
  fun k =>
    match imported k with
    | some v => some v
    | none => prev k

/-! ### Helper lemmas about the resolver -/

/-- Unfolding of the point resolver at a present registry entry. -/
theorem getCurrentAvailability_some (av : UnitAvailability) (d : String) :
    getCurrentAvailability (some av) d =
      if av.periods.length = 0 then none
      else av.periods.find? (fun period => periodContains period d) := rfl

/-- Unfolding of the range resolver at a present registry entry. -/
theorem getAvailabilityForRange_some (av : UnitAvailability) (sd ed : String) :
    getAvailabilityForRange (some av) sd ed =
      if av.periods.length = 0 then available
      else av.periods.foldl (worstStatusStep sd ed) available := rfl

/-- Unfolding of the gap finder at a present registry entry. -/
theorem getNextAvailablePeriod_some (av : UnitAvailability) (startFrom : Ymd) :
    getNextAvailablePeriod (some av) startFrom =
      if av.periods.length = 0 then some (generate4WeekPeriod startFrom)
      else some (gapScan (sortByStart (av.periods.filter isBlocking))
        startFrom) := rfl

/-- find? yields the element at the first index whose predicate holds. -/
theorem find?_eq_get_of_first {α : Type} (p : α → Bool) :
    ∀ (l : List α) (i : ℕ) (h : i < l.length),
      p (l.get ⟨i, h⟩) = true →
      (∀ j (hj : j < i), p (l.get ⟨j, Nat.lt_trans hj h⟩) = false) →
      l.find? p = some (l.get ⟨i, h⟩) := by
  intro l
  induction l with
  | nil => intro i h; exact absurd h (Nat.not_lt_zero i)
  | cons a as ih =>
    intro i h hp hprev
    cases i with
    | zero =>
      show (a :: as).find? p = some a
      exact List.find?_cons_of_pos _ hp
    | succ j =>
      have h0 : p a = false := hprev 0 (Nat.succ_pos j)
      have ha : ¬ p a = true := by simp [h0]
      have hj : j < as.length := Nat.lt_of_succ_lt_succ h
      rw [List.find?_cons_of_neg _ ha]
      exact ih j hj hp (fun k hk => hprev (k + 1) (Nat.succ_lt_succ hk))

theorem statusPriority_le_four (s : AvailabilityStatus) : statusPriority s ≤ 4 := by
  cases s <;> simp [statusPriority]

theorem statusPriority_pos (s : AvailabilityStatus) : 1 ≤ statusPriority s := by
  cases s <;> simp [statusPriority]

theorem eq_available_of_priority_le_one {s : AvailabilityStatus}
    (h : statusPriority s ≤ 1) : s = available := by
  cases s <;> simp_all [statusPriority]

theorem eq_sold_of_four_le_priority {s : AvailabilityStatus}
    (h : 4 ≤ statusPriority s) : s = sold := by
  cases s <;> simp_all [statusPriority]

theorem worst_foldl_ge_init (sd ed : String) :
    ∀ (l : List AvailabilityPeriod) (w : AvailabilityStatus),
      statusPriority w ≤ statusPriority (l.foldl (worstStatusStep sd ed) w) := by
  intro l
  induction l with
  | nil => intro w; simp
  | cons a as ih =>
    intro w
    refine le_trans ?_ (ih (worstStatusStep sd ed w a))
    unfold worstStatusStep
    split <;> simp_all <;> omega

theorem worst_foldl_ge_mem (sd ed : String) :
    ∀ (l : List AvailabilityPeriod) (w : AvailabilityStatus)
      (p : AvailabilityPeriod), p ∈ l → periodOverlaps p sd ed = true →
      statusPriority p.status ≤ statusPriority (l.foldl (worstStatusStep sd ed) w) := by
  intro l
  induction l with
  | nil => intro w p hp; exact absurd hp (List.not_mem_nil p)
  | cons a as ih =>
    intro w p hp hov
    rcases List.mem_cons.mp hp with rfl | hmem
    · refine le_trans ?_ (worst_foldl_ge_init sd ed as (worstStatusStep sd ed w p))
      unfold worstStatusStep
      split <;> simp_all <;> omega
    · exact ih (worstStatusStep sd ed w a) p hmem hov

theorem worst_foldl_attained (sd ed : String) :
    ∀ (l : List AvailabilityPeriod) (w : AvailabilityStatus),
      l.foldl (worstStatusStep sd ed) w = w ∨
      ∃ p ∈ l, periodOverlaps p sd ed = true ∧
        l.foldl (worstStatusStep sd ed) w = p.status := by
  intro l
  induction l with
  | nil => intro w; left; rfl
  | cons a as ih =>
    intro w
    rcases ih (worstStatusStep sd ed w a) with h | ⟨p, hmem, hov, hres⟩
    · rw [List.foldl_cons, h]
      unfold worstStatusStep
      split
      · rename_i hcond
        right
        exact ⟨a, List.mem_cons_self a as, (Bool.and_eq_true _ _ ▸ hcond).1, rfl⟩
      · left; rfl
    · right
      exact ⟨p, List.mem_cons_of_mem a hmem, hov, by rw [List.foldl_cons]; exact hres⟩

theorem worst_foldl_of_no_overlap (sd ed : String) :
    ∀ (l : List AvailabilityPeriod) (w : AvailabilityStatus),
      (∀ p ∈ l, periodOverlaps p sd ed = false) →
      l.foldl (worstStatusStep sd ed) w = w := by
  intro l
  induction l with
  | nil => intro w _; rfl
  | cons a as ih =>
    intro w h
    rw [List.foldl_cons]
    have ha : worstStatusStep sd ed w a = w := by
      unfold worstStatusStep
      have := h a (List.mem_cons_self a as)
      simp [this]
    rw [ha]
    exact ih w (fun p hp => h p (List.mem_cons_of_mem a hp))

/-! ### Claim theorems: the availability resolver -/

/-- C3: for every registry entry and query range, RangeStatus is
available when there is no entry, no periods, or no period overlapping
the range under the inclusive test; otherwise it is the
highest-severity status among the overlapping periods under the order
sold(4) > hold(3) > pending(2) > available(1), so in particular a
single overlapping sold period forces the result sold. -/
theorem rangeStatus_is_worst_overlapping (a : Option UnitAvailability)
    (sd ed : String) :
    (a = none → getAvailabilityForRange a sd ed = available) ∧
    (∀ av, a = some av → av.periods = [] →
      getAvailabilityForRange a sd ed = available) ∧
    (∀ av, a = some av → (∀ p ∈ av.periods, periodOverlaps p sd ed = false) →
      getAvailabilityForRange a sd ed = available) ∧
    (∀ av, a = some av → ∀ p ∈ av.periods, periodOverlaps p sd ed = true →
      statusPriority p.status ≤ statusPriority (getAvailabilityForRange a sd ed) ∧
      (∃ q ∈ av.periods, periodOverlaps q sd ed = true ∧
        q.status = getAvailabilityForRange a sd ed) ∧
      (p.status = sold → getAvailabilityForRange a sd ed = sold)) := by
  refine ⟨fun h => by subst h; rfl, ?_, ?_, ?_⟩
  · intro av ha hemp
    subst ha
    simp [getAvailabilityForRange, hemp]
  · intro av ha hno
    subst ha
    rw [getAvailabilityForRange_some]
    split
    · rfl
    · exact worst_foldl_of_no_overlap sd ed av.periods available hno
  · intro av ha p hmem hov
    subst ha
    have hlen : av.periods.length ≠ 0 :=
      fun h => absurd (List.length_eq_zero.mp h ▸ hmem) (List.not_mem_nil p)
    have hres : getAvailabilityForRange (some av) sd ed =
        av.periods.foldl (worstStatusStep sd ed) available := by
      rw [getAvailabilityForRange_some, if_neg hlen]
    refine ⟨?_, ?_, ?_⟩
    · rw [hres]; exact worst_foldl_ge_mem sd ed av.periods available p hmem hov
    · rcases worst_foldl_attained sd ed av.periods available with h | ⟨q, hq, hqov, hqres⟩
      · refine ⟨p, hmem, hov, ?_⟩
        have hub : statusPriority p.status ≤ 1 := by
          have := worst_foldl_ge_mem sd ed av.periods available p hmem hov
          rw [h] at this
          simpa [statusPriority] using this
        rw [hres, h, eq_available_of_priority_le_one hub]
      · exact ⟨q, hq, hqov, by rw [hres, hqres]⟩
    · intro hsold
      have hub := worst_foldl_ge_mem sd ed av.periods available p hmem hov
      rw [hsold] at hub
      rw [hres]
      exact eq_sold_of_four_le_priority (by simpa [statusPriority] using hub)

/-- C3 witness at a concrete registry: a sold period and a pending
period both overlap the query range and the resolver answers sold. -/
theorem rangeStatus_is_worst_overlapping_witness :
    statusPriority sold ≤ statusPriority (getAvailabilityForRange
      (some ⟨"U", [⟨"2026-01-01", "2026-01-28", pending, none, none⟩,
        ⟨"2026-01-10", "2026-01-12", sold, none, none⟩], "t"⟩)
      "2026-01-05" "2026-01-11") ∧
    getAvailabilityForRange
      (some ⟨"U", [⟨"2026-01-01", "2026-01-28", pending, none, none⟩,
        ⟨"2026-01-10", "2026-01-12", sold, none, none⟩], "t"⟩)
      "2026-01-05" "2026-01-11" = sold := by
  have h := (rangeStatus_is_worst_overlapping
    (some ⟨"U", [⟨"2026-01-01", "2026-01-28", pending, none, none⟩,
      ⟨"2026-01-10", "2026-01-12", sold, none, none⟩], "t"⟩)
    "2026-01-05" "2026-01-11").2.2.2 _ rfl
    ⟨"2026-01-10", "2026-01-12", sold, none, none⟩ (by decide) (by decide)
  exact ⟨h.1, h.2.2 rfl⟩

/-- C5: CurrentStatus is null (no data) when the unit has no registry
entry; and when a period P with startDate at most endDate contains the
query date and no period at an earlier list position contains it, the
resolver yields exactly P, i.e. the first match in list order wins
rather than the worst-severity one. -/
theorem currentStatus_first_match (d : String) :
    (getCurrentAvailability none d = none) ∧
    (∀ (av : UnitAvailability) (i : ℕ) (h : i < av.periods.length),
      strLeB (av.periods.get ⟨i, h⟩).startDate (av.periods.get ⟨i, h⟩).endDate = true →
      periodContains (av.periods.get ⟨i, h⟩) d = true →
      (∀ j (hj : j < i),
        periodContains (av.periods.get ⟨j, Nat.lt_trans hj h⟩) d = false) →
      getCurrentAvailability (some av) d = some (av.periods.get ⟨i, h⟩)) := by
  refine ⟨rfl, ?_⟩
  intro av i h _ hp hprev
  have hlen : av.periods.length ≠ 0 := by omega
  rw [getCurrentAvailability_some, if_neg hlen]
  exact find?_eq_get_of_first (fun period => periodContains period d)
    av.periods i h hp hprev

/-- C5 witness: two overlapping periods both contain the date; the
first in list order, a pending one, is returned even though a sold one
also contains the date. -/
theorem currentStatus_first_match_witness :
    getCurrentAvailability
      (some ⟨"U", [⟨"2026-01-01", "2026-01-28", pending, none, none⟩,
        ⟨"2026-01-10", "2026-01-12", sold, none, none⟩], "t"⟩)
      "2026-01-11" = some ⟨"2026-01-01", "2026-01-28", pending, none, none⟩ :=
  (currentStatus_first_match "2026-01-11").2
    ⟨"U", [⟨"2026-01-01", "2026-01-28", pending, none, none⟩,
      ⟨"2026-01-10", "2026-01-12", sold, none, none⟩], "t"⟩
    0 (by decide) (by decide) (by decide) (fun j hj => absurd hj (Nat.not_lt_zero j))

/-- C10: CurrentStatus is null not only with no registry entry but also
with an entry whose period list is empty, and with periods none of
which contains the query date; a null result therefore cannot by
itself separate the no-data case from the no-covering-period case. -/
theorem currentStatus_null_cases (d : String) :
    (getCurrentAvailability none d = none) ∧
    (∀ av : UnitAvailability, av.periods = [] →
      getCurrentAvailability (some av) d = none) ∧
    (∀ av : UnitAvailability, (∀ p ∈ av.periods, periodContains p d = false) →
      getCurrentAvailability (some av) d = none) := by
  refine ⟨rfl, ?_, ?_⟩
  · intro av h
    rw [getCurrentAvailability_some]
    simp [h]
  · intro av h
    rw [getCurrentAvailability_some]
    split
    · rfl
    · exact List.find?_eq_none.mpr (fun p hp => by simp [h p hp])

/-- C10 witness: a unit with data whose periods do not cover the query
date resolves to null exactly as a unit with no entry does. -/
theorem currentStatus_null_cases_witness :
    getCurrentAvailability
      (some ⟨"U", [⟨"2026-01-01", "2026-01-02", sold, none, none⟩], "t"⟩)
      "2026-03-01" = none ∧
    getCurrentAvailability (some ⟨"U", [], "t"⟩) "2026-03-01" = none :=
  ⟨(currentStatus_null_cases "2026-03-01").2.2
      ⟨"U", [⟨"2026-01-01", "2026-01-02", sold, none, none⟩], "t"⟩ (by decide),
    (currentStatus_null_cases "2026-03-01").2.1 ⟨"U", [], "t"⟩ rfl⟩

/-- C8: the gap finder always yields a window; the null branch of its
declared return type is unreachable. -/
theorem nextAvailable_never_null (a : Option UnitAvailability) (startFrom : Ymd) :
    (getNextAvailablePeriod a startFrom).isSome = true := by
  cases a with
  | none => rfl
  | some av =>
    rw [getNextAvailablePeriod_some]
    split <;> rfl

/-! ### Date printing and parsing round trip -/

theorem isDig_digit : ∀ n : ℕ, isDig (digit n) = true := by
  intro n
  match n with
  | 0 | 1 | 2 | 3 | 4 | 5 | 6 | 7 | 8 => rfl
  | _ + 9 => rfl

theorem dv_digit : ∀ n : ℕ, n < 10 → dv (digit n) = n := by decide

theorem dv_le_nine {c : Char} (h : isDig c = true) : dv c ≤ 9 := by
  unfold isDig at h
  unfold dv
  simp only [Bool.and_eq_true, decide_eq_true_eq] at h
  omega

theorem digitsVal_foldl_lt :
    ∀ (l : List Char) (acc : ℕ), l.all isDig = true →
      l.foldl (fun a c => a * 10 + dv c) acc < (acc + 1) * 10 ^ l.length := by
  intro l
  induction l with
  | nil => intro acc _; simpa using Nat.lt_succ_self acc
  | cons c cs ih =>
    intro acc hall
    simp only [List.all_cons, Bool.and_eq_true] at hall
    have hc : dv c ≤ 9 := dv_le_nine hall.1
    have := ih (acc * 10 + dv c) hall.2
    calc (c :: cs).foldl (fun a c => a * 10 + dv c) acc
        = cs.foldl (fun a c => a * 10 + dv c) (acc * 10 + dv c) := rfl
      _ < (acc * 10 + dv c + 1) * 10 ^ cs.length := this
      _ ≤ ((acc + 1) * 10) * 10 ^ cs.length :=
          Nat.mul_le_mul_right _ (by omega)
      _ = (acc + 1) * 10 ^ (c :: cs).length := by
          rw [List.length_cons, pow_succ]
          ring

theorem daysInMonth_le (y m : ℕ) : daysInMonth y m ≤ 31 := by
  unfold daysInMonth
  split
  · split <;> omega
  · split <;> omega

theorem valid_bounds {t : Ymd} (h : t.valid = true) :
    1 ≤ t.month ∧ t.month ≤ 12 ∧ 1 ≤ t.day ∧ t.day ≤ 31 := by
  unfold Ymd.valid at h
  simp only [Bool.and_eq_true, decide_eq_true_eq] at h
  have := daysInMonth_le t.year t.month
  omega

/-- Printing a date with a four-digit year and parsing it back through
the ISO shape recovers the same triple. -/
theorem parseIsoShape_printYmd (t : Ymd) (hy : t.year ≤ 9999)
    (hmle : t.month ≤ 99) (hdle : t.day ≤ 99) :
    parseIsoShape (printYmdChars t) = some ⟨t.year, t.month, t.day⟩ := by
  show parseIsoShape
    [digit (t.year / 1000 % 10), digit (t.year / 100 % 10),
     digit (t.year / 10 % 10), digit (t.year % 10), '-',
     digit (t.month / 10 % 10), digit (t.month % 10), '-',
     digit (t.day / 10 % 10), digit (t.day % 10)] = some ⟨t.year, t.month, t.day⟩
  unfold parseIsoShape
  simp only [isDig_digit, Bool.and_true, Bool.true_and, reduceIte,
    Option.some.injEq, decide_True]
  have e1 := dv_digit (t.year / 1000 % 10) (Nat.mod_lt _ (by norm_num))
  have e2 := dv_digit (t.year / 100 % 10) (Nat.mod_lt _ (by norm_num))
  have e3 := dv_digit (t.year / 10 % 10) (Nat.mod_lt _ (by norm_num))
  have e4 := dv_digit (t.year % 10) (Nat.mod_lt _ (by norm_num))
  have e5 := dv_digit (t.month / 10 % 10) (Nat.mod_lt _ (by norm_num))
  have e6 := dv_digit (t.month % 10) (Nat.mod_lt _ (by norm_num))
  have e7 := dv_digit (t.day / 10 % 10) (Nat.mod_lt _ (by norm_num))
  have e8 := dv_digit (t.day % 10) (Nat.mod_lt _ (by norm_num))
  rw [e1, e2, e3, e4, e5, e6, e7, e8]
  congr 1 <;> omega

/-- Every successfully parsed date is a valid calendar date with a
four-digit year. -/
theorem jsParseDate_some_valid {s : String} {t : Ymd}
    (h : jsParseDate s = some t) : t.valid = true ∧ t.year ≤ 9999 := by
  unfold jsParseDate at h
  split at h
  case h_2 => exact absurd h (by simp)
  case h_1 u heq =>
    split at h
    case isFalse => exact absurd h (by simp)
    case isTrue hval =>
      have hut : u = t := by simpa using h
      subst hut
      refine ⟨hval, ?_⟩
      rcases (Option.orElse_eq_some' _ _ _).mp heq with hiso | ⟨-, hslash2⟩
      · clear heq h
        unfold parseIsoShape at hiso
        split at hiso
        case h_2 => exact absurd hiso (by simp)
        case h_1 y1 y2 y3 y4 h1 m1 m2 h2 d1 d2 heq1 =>
          split at hiso
          case isFalse => exact absurd hiso (by simp)
          case isTrue hcond =>
            simp only [Bool.and_eq_true, decide_eq_true_eq] at hcond
            obtain ⟨⟨-, -⟩, ⟨⟨⟨⟨⟨⟨hy1, hy2⟩, hy3⟩, hy4⟩, -⟩, -⟩, -⟩, -⟩ := hcond
            have b1 := dv_le_nine hy1
            have b2 := dv_le_nine hy2
            have b3 := dv_le_nine hy3
            have b4 := dv_le_nine hy4
            have hu : u = ⟨dv y1 * 1000 + dv y2 * 100 + dv y3 * 10 + dv y4,
                dv m1 * 10 + dv m2, dv d1 * 10 + dv d2⟩ := by
              simpa using hiso.symm
            rw [hu]
            show dv y1 * 1000 + dv y2 * 100 + dv y3 * 10 + dv y4 ≤ 9999
            omega
      · clear heq h
        unfold parseSlashShape at hslash2
        split at hslash2
        case h_2 => exact absurd hslash2 (by simp)
        case h_1 ms ds ys heq2 =>
          split at hslash2
          case isFalse => exact absurd hslash2 (by simp)
          case isTrue hcond =>
            simp only [Bool.and_eq_true, beq_iff_eq] at hcond
            obtain ⟨⟨⟨⟨⟨⟨⟨-, -⟩, -⟩, -⟩, -⟩, -⟩, hlen⟩, hall⟩ := hcond
            have hu : u = ⟨digitsVal ys.data, digitsVal ms.data, digitsVal ds.data⟩ := by
              simpa using hslash2.symm
            rw [hu]
            show digitsVal ys.data ≤ 9999
            have := digitsVal_foldl_lt ys.data 0 hall
            rw [hlen] at this
            unfold digitsVal
            omega

/-- Parsing the canonical rendering of a valid in-range date yields the
date back. -/
theorem jsParseDate_printYmd (t : Ymd) (hv : t.valid = true)
    (hy : t.year ≤ 9999) : jsParseDate (printYmd t) = some t := by
  unfold jsParseDate
  have hdata : (printYmd t).data = printYmdChars t := rfl
  obtain ⟨-, hm12, -, hd31⟩ := valid_bounds hv
  rw [hdata, parseIsoShape_printYmd t hy (by omega) (by omega)]
  show (if Ymd.valid ⟨t.year, t.month, t.day⟩ = true then
    some (⟨t.year, t.month, t.day⟩ : Ymd) else none) = some t
  simpa using hv

/-- C9: normalizing a parseable date text twice gives the same result
as normalizing it once. -/
theorem normalizeDate_idempotent (x : String) (h : isValidDate x = true) :
    normalizeDate (normalizeDate x) = normalizeDate x := by
  unfold isValidDate at h
  obtain ⟨t, ht⟩ := Option.isSome_iff_exists.mp h
  obtain ⟨hv, hy⟩ := jsParseDate_some_valid ht
  have h1 : normalizeDate x = printYmd t := by
    unfold normalizeDate
    rw [ht]
  rw [h1]
  unfold normalizeDate
  rw [jsParseDate_printYmd t hv hy]

/-- C9 witness: a slash-format date normalizes idempotently. -/
theorem normalizeDate_idempotent_witness :
    isValidDate "02/05/2026" = true ∧
    normalizeDate (normalizeDate "02/05/2026") = normalizeDate "02/05/2026" :=
  ⟨by decide, normalizeDate_idempotent "02/05/2026" (by decide)⟩

/-! ### The merge: batch grouping and registry update -/

/-- Period count stored under a key, zero when absent. -/
def lenOf (o : Option UnitAvailability) : ℕ :=
  match o with
  | some ua => ua.periods.length
  | none => 0

theorem importStep_lenOf (now : String) (m : Registry) (row : ParsedRow)
    (u : String) :
    lenOf (importStep now m row u) =
      lenOf (m u) + (if row.unitId == u then 1 else 0) := by
  unfold importStep lenOf
  by_cases hu : u = row.unitId
  · subst hu
    simp only [if_pos rfl, beq_self_eq_true, reduceIte]
    cases hmu : m row.unitId <;> simp [hmu]
  · have : (row.unitId == u) = false := by
      simp [beq_eq_false_iff_ne]
      exact fun hh => hu hh.symm
    simp [if_neg hu, this]

theorem build_foldl_lenOf (now : String) :
    ∀ (rows : List ParsedRow) (m : Registry) (u : String),
      lenOf ((rows.foldl (importStep now) m) u) =
        lenOf (m u) + rows.countP (fun r => r.unitId == u) := by
  intro rows
  induction rows with
  | nil => intro m u; simp [List.countP_nil]
  | cons r rs ih =>
    intro m u
    rw [List.foldl_cons, ih (importStep now m r) u, importStep_lenOf]
    rw [List.countP_cons]
    omega

theorem build_foldl_isSome (now : String) :
    ∀ (rows : List ParsedRow) (m : Registry) (u : String),
      ((rows.foldl (importStep now) m) u).isSome =
        ((m u).isSome || rows.countP (fun r => r.unitId == u) ≠ 0) := by
  intro rows
  induction rows with
  | nil => intro m u; simp [List.countP_nil]
  | cons r rs ih =>
    intro m u
    rw [List.foldl_cons, ih (importStep now m r) u, List.countP_cons]
    have hstep : (importStep now m r u).isSome =
        ((m u).isSome || (r.unitId == u)) := by
      unfold importStep
      by_cases hu : u = r.unitId
      · subst hu
        simp only [if_pos rfl, beq_self_eq_true, Bool.or_true]
        cases hmu : m r.unitId <;> simp [hmu]
      · have hbe : (r.unitId == u) = false := by
          simp only [beq_eq_false_iff_ne, ne_eq]
          exact fun hh => hu hh.symm
        simp [if_neg hu, hbe]
    rw [hstep]
    by_cases hr : (r.unitId == u) = true <;> simp [hr] <;> omega

theorem build_foldl_lastUpdated (now : String) :
    ∀ (rows : List ParsedRow) (m : Registry),
      (∀ u ua, m u = some ua → ua.lastUpdated = now) →
      ∀ u ua, (rows.foldl (importStep now) m) u = some ua →
        ua.lastUpdated = now := by
  intro rows
  induction rows with
  | nil => intro m hm u ua h; exact hm u ua h
  | cons r rs ih =>
    intro m hm
    rw [List.foldl_cons]
    refine ih (importStep now m r) ?_
    intro u ua h
    unfold importStep at h
    by_cases hu : u = r.unitId
    · subst hu
      rw [if_pos rfl] at h
      cases hm2 : m r.unitId with
      | none =>
        rw [hm2] at h
        have hua : ua = ⟨r.unitId,
            [⟨r.startDate, r.endDate, r.status, r.client, r.notes⟩], now⟩ := by
          simpa using h.symm
        rw [hua]
      | some ua0 =>
        rw [hm2] at h
        have : ua = { ua0 with periods := ua0.periods ++
            [⟨r.startDate, r.endDate, r.status, r.client, r.notes⟩] } := by
          simpa using h.symm
        rw [this]
        exact hm r.unitId ua0 hm2
    · rw [if_neg hu] at h
      exact hm u ua h

/-- C1 counterexample: a registry already holding one period for a
unit, merged with a batch holding one validated row for that same
unit, ends with one period for the unit (the batch entry replaced the
stored entry), not the two periods the claim requires. -/
theorem merge_append_counterexample :
    ((mergeRegistry
        (fun k => if k = "U1" then
          some ⟨"U1", [⟨"2025-01-01", "2025-01-28", sold, none, none⟩], "t0"⟩
          else none)
        (buildAvailabilityMap
          [⟨"U1", "2026-02-01", "2026-02-28", sold, none, none⟩] "t1"))
      "U1").map (fun ua => ua.periods.length) = some 1 ∧
    ((mergeRegistry
        (fun k => if k = "U1" then
          some ⟨"U1", [⟨"2025-01-01", "2025-01-28", sold, none, none⟩], "t0"⟩
          else none)
        (buildAvailabilityMap
          [⟨"U1", "2026-02-01", "2026-02-28", sold, none, none⟩] "t1"))
      "U1").map (fun ua => ua.periods.length) ≠ some 2 := by
  constructor
  · rfl
  · decide

/-- C1 amended: merging a batch sets each unit id present in the batch
to the entry built from the batch alone, discarding any previously
stored periods for that unit, so that unit's period count equals the
number of newly validated rows for it and its lastUpdated is the time
of the import; a unit id absent from the batch keeps its previous entry
(in particular a unit with no prior entry gains a new entry). -/
theorem merge_sets_batch_units (prev : Registry) (rows : List ParsedRow)
    (now : String) (u : String) :
    (rows.countP (fun r => r.unitId == u) ≠ 0 →
      mergeRegistry prev (buildAvailabilityMap rows now) u =
        buildAvailabilityMap rows now u ∧
      ∃ ua, buildAvailabilityMap rows now u = some ua ∧
        ua.periods.length = rows.countP (fun r => r.unitId == u) ∧
        ua.lastUpdated = now) ∧
    (rows.countP (fun r => r.unitId == u) = 0 →
      mergeRegistry prev (buildAvailabilityMap rows now) u = prev u) := by
  constructor
  · intro hcount
    have hsome : ((buildAvailabilityMap rows now) u).isSome = true := by
      unfold buildAvailabilityMap
      rw [build_foldl_isSome]
      simp [hcount]
    obtain ⟨ua, hua⟩ := Option.isSome_iff_exists.mp hsome
    constructor
    · unfold mergeRegistry
      rw [hua]
    · refine ⟨ua, hua, ?_, ?_⟩
      · have := build_foldl_lenOf now rows (fun _ => none) u
        unfold buildAvailabilityMap at hua
        rw [hua] at this
        simpa [lenOf] using this
      · exact build_foldl_lastUpdated now rows (fun _ => none)
          (fun u ua h => by simp at h) u ua hua
  · intro hcount
    have hnone : (buildAvailabilityMap rows now) u = none := by
      cases hb : (buildAvailabilityMap rows now) u with
      | none => rfl
      | some ua =>
        have : ((buildAvailabilityMap rows now) u).isSome = true := by
          rw [hb]; rfl
        unfold buildAvailabilityMap at this
        rw [build_foldl_isSome] at this
        simp [hcount] at this
    unfold mergeRegistry
    rw [hnone]

/-- C1 amended witness: one prior period for the unit, one batch row
for it; after the merge the unit holds exactly the one batch period
with the batch timestamp. -/
theorem merge_sets_batch_units_witness :
    List.countP (fun r => r.unitId == "U1")
      [(⟨"U1", "2026-02-01", "2026-02-28", sold, none, none⟩ : ParsedRow)] ≠ 0 ∧
    mergeRegistry
      (fun k => if k = "U1" then
        some ⟨"U1", [⟨"2025-01-01", "2025-01-28", sold, none, none⟩], "t0"⟩
        else none)
      (buildAvailabilityMap
        [⟨"U1", "2026-02-01", "2026-02-28", sold, none, none⟩] "t1") "U1" =
      buildAvailabilityMap
        [⟨"U1", "2026-02-01", "2026-02-28", sold, none, none⟩] "t1" "U1" ∧
    ∃ ua, buildAvailabilityMap
        [⟨"U1", "2026-02-01", "2026-02-28", sold, none, none⟩] "t1" "U1" =
        some ua ∧
      ua.periods.length = List.countP (fun r => r.unitId == "U1")
        [(⟨"U1", "2026-02-01", "2026-02-28", sold, none, none⟩ : ParsedRow)] ∧
      ua.lastUpdated = "t1" := by
  have h := (merge_sets_batch_units
    (fun k => if k = "U1" then
      some ⟨"U1", [⟨"2025-01-01", "2025-01-28", sold, none, none⟩], "t0"⟩
      else none)
    [⟨"U1", "2026-02-01", "2026-02-28", sold, none, none⟩] "t1" "U1").1
    (by decide)
  exact ⟨by decide, h.1, h.2⟩

/-! ### Claims about the header of the import -/

/-- C2 counterexample: a header without a status column, followed by
two well-formed data rows, aborts with zero validated rows and exactly
one structural error, but that error carries row number 1, not the row
number 0 the claim states. -/
theorem headerError_row_counterexample :
    (parseCSV ["AC-10D"]
      "unit_id,start_date,end_date\nAC-10D,2026-02-01,2026-02-28,sold\nAC-10D,2026-03-01,2026-03-28,sold").1
      = [] ∧
    (parseCSV ["AC-10D"]
      "unit_id,start_date,end_date\nAC-10D,2026-02-01,2026-02-28,sold\nAC-10D,2026-03-01,2026-03-28,sold").2
      = [⟨1, "Missing required columns. Expected: unit_id, start_date, end_date, status"⟩] ∧
    ∀ e ∈ (parseCSV ["AC-10D"]
      "unit_id,start_date,end_date\nAC-10D,2026-02-01,2026-02-28,sold\nAC-10D,2026-03-01,2026-03-28,sold").2,
      e.row ≠ 0 := by
  refine ⟨rfl, rfl, ?_⟩
  decide

/-- C2 amended: whenever any of the four required columns cannot be
resolved from the header row, the parse aborts with zero validated
rows and exactly one structural error whose row number is 1 (the
header line's 1-based file line number; row 0 is reserved for
file-level failures), regardless of how many data rows follow. -/
theorem parseCSV_missing_required_columns (unitIds : List String) (text : String)
    (h : (headerFields text).findIdx? isUnitIdCol = none ∨
      (headerFields text).findIdx? isStartCol = none ∨
      (headerFields text).findIdx? isEndCol = none ∨
      (headerFields text).findIdx? isStatusCol = none) :
    parseCSV unitIds text =
      ([], [⟨1, "Missing required columns. Expected: unit_id, start_date, end_date, status"⟩]) := by
  simp only [parseCSV]
  split
  · rename_i ui si ei sti hu hs he hst
    rw [hu, hs, he, hst] at h
    rcases h with h | h | h | h <;> exact absurd h (by simp)
  · rfl

/-- C2 amended witness: the counterexample input satisfies the
missing-column hypothesis and aborts as described. -/
theorem parseCSV_missing_required_columns_witness :
    parseCSV ["AC-10D"]
      "unit_id,start_date,end_date\nAC-10D,2026-02-01,2026-02-28,sold" =
      ([], [⟨1, "Missing required columns. Expected: unit_id, start_date, end_date, status"⟩]) :=
  parseCSV_missing_required_columns ["AC-10D"]
    "unit_id,start_date,end_date\nAC-10D,2026-02-01,2026-02-28,sold"
    (by decide)

/-! ### Claim C7: per-row validation order and independence -/

/-- The row outcomes kept as validated rows. -/
def rowOf (o : Option (ParsedRow ⊕ ParseError)) : Option ParsedRow :=
  match o with
  | some (Sum.inl r) => some r
  | _ => none

/-- The row outcomes kept as errors. -/
def errOf (o : Option (ParsedRow ⊕ ParseError)) : Option ParseError :=
  match o with
  | some (Sum.inr e) => some e
  | _ => none

theorem processRows_filterMap (unitIds : List String) (idx : HeaderIdx) :
    ∀ (lines : List String) (i : ℕ),
      processRows unitIds idx i lines =
        ((lines.enumFrom i).filterMap
            (fun p => rowOf (parseLine unitIds idx (p.1 + 1) p.2)),
         (lines.enumFrom i).filterMap
            (fun p => errOf (parseLine unitIds idx (p.1 + 1) p.2))) := by
  intro lines
  induction lines with
  | nil => intro i; rfl
  | cons l ls ih =>
    intro i
    show (let rest := processRows unitIds idx (i + 1) ls
      match parseLine unitIds idx (i + 1) l with
      | none => rest
      | some (.inl row) => (row :: rest.1, rest.2)
      | some (.inr err) => (rest.1, err :: rest.2)) = _
    rw [show List.enumFrom i (l :: ls) = (i, l) :: List.enumFrom (i + 1) ls from rfl]
    rw [List.filterMap_cons, List.filterMap_cons, ih (i + 1)]
    cases hout : parseLine unitIds idx (i + 1) l with
    | none => simp [rowOf, errOf]
    | some v => cases v with
      | inl r => simp [rowOf, errOf]
      | inr e => simp [rowOf, errOf]

/-- C7: each data row is validated by the fixed ordered chain --- unit
id non-empty, unit id known, start date parses, end date parses,
status literal valid case-insensitively --- an invalid row yields
exactly the error of its first failing check, stamped with its row
number (the 1-based file line number, the header being line 1), a
valid row yields exactly one validated row, and the outcome lists are
the independent per-line outcomes in line order, so no row's failure
affects any other row. -/
theorem parseCSV_row_validation (unitIds : List String) (idx : HeaderIdx) :
    (∀ (lines : List String) (i : ℕ),
      processRows unitIds idx i lines =
        ((lines.enumFrom i).filterMap
            (fun p => rowOf (parseLine unitIds idx (p.1 + 1) p.2)),
         (lines.enumFrom i).filterMap
            (fun p => errOf (parseLine unitIds idx (p.1 + 1) p.2)))) ∧
    (∀ (rowNum : ℕ) (rawLine : String), strTrim rawLine ≠ "" →
      (rowField (splitQuoted (strTrim rawLine)) idx.unitIdIdx).getD "" = "" →
      parseLine unitIds idx rowNum rawLine =
        some (Sum.inr ⟨rowNum, "Missing unit ID"⟩)) ∧
    (∀ (rowNum : ℕ) (rawLine : String), strTrim rawLine ≠ "" →
      (rowField (splitQuoted (strTrim rawLine)) idx.unitIdIdx).getD "" ≠ "" →
      unitIds.contains
        ((rowField (splitQuoted (strTrim rawLine)) idx.unitIdIdx).getD "") = false →
      parseLine unitIds idx rowNum rawLine =
        some (Sum.inr ⟨rowNum, "Unknown unit ID: " ++
          (rowField (splitQuoted (strTrim rawLine)) idx.unitIdIdx).getD ""⟩)) ∧
    (∀ (rowNum : ℕ) (rawLine : String), strTrim rawLine ≠ "" →
      (rowField (splitQuoted (strTrim rawLine)) idx.unitIdIdx).getD "" ≠ "" →
      unitIds.contains
        ((rowField (splitQuoted (strTrim rawLine)) idx.unitIdIdx).getD "") = true →
      ((rowField (splitQuoted (strTrim rawLine)) idx.startIdx).getD "" = "" ∨
        isValidDate ((rowField (splitQuoted (strTrim rawLine)) idx.startIdx).getD "") = false) →
      parseLine unitIds idx rowNum rawLine =
        some (Sum.inr ⟨rowNum, "Invalid start date: " ++
          optStr (rowField (splitQuoted (strTrim rawLine)) idx.startIdx)⟩)) ∧
    (∀ (rowNum : ℕ) (rawLine : String), strTrim rawLine ≠ "" →
      (rowField (splitQuoted (strTrim rawLine)) idx.unitIdIdx).getD "" ≠ "" →
      unitIds.contains
        ((rowField (splitQuoted (strTrim rawLine)) idx.unitIdIdx).getD "") = true →
      (rowField (splitQuoted (strTrim rawLine)) idx.startIdx).getD "" ≠ "" →
      isValidDate ((rowField (splitQuoted (strTrim rawLine)) idx.startIdx).getD "") = true →
      ((rowField (splitQuoted (strTrim rawLine)) idx.endIdx).getD "" = "" ∨
        isValidDate ((rowField (splitQuoted (strTrim rawLine)) idx.endIdx).getD "") = false) →
      parseLine unitIds idx rowNum rawLine =
        some (Sum.inr ⟨rowNum, "Invalid end date: " ++
          optStr (rowField (splitQuoted (strTrim rawLine)) idx.endIdx)⟩)) ∧
    (∀ (rowNum : ℕ) (rawLine : String), strTrim rawLine ≠ "" →
      (rowField (splitQuoted (strTrim rawLine)) idx.unitIdIdx).getD "" ≠ "" →
      unitIds.contains
        ((rowField (splitQuoted (strTrim rawLine)) idx.unitIdIdx).getD "") = true →
      (rowField (splitQuoted (strTrim rawLine)) idx.startIdx).getD "" ≠ "" →
      isValidDate ((rowField (splitQuoted (strTrim rawLine)) idx.startIdx).getD "") = true →
      (rowField (splitQuoted (strTrim rawLine)) idx.endIdx).getD "" ≠ "" →
      isValidDate ((rowField (splitQuoted (strTrim rawLine)) idx.endIdx).getD "") = true →
      ((rowField (splitQuoted (strTrim rawLine)) idx.statusIdx).map asciiLower).bind
          statusOfString = none →
      parseLine unitIds idx rowNum rawLine =
        some (Sum.inr ⟨rowNum, "Invalid status: " ++
          optStr ((rowField (splitQuoted (strTrim rawLine)) idx.statusIdx).map asciiLower) ++
          ". Must be: available, sold, hold, or pending"⟩)) ∧
    (∀ (rowNum : ℕ) (rawLine : String) (st : AvailabilityStatus),
      strTrim rawLine ≠ "" →
      (rowField (splitQuoted (strTrim rawLine)) idx.unitIdIdx).getD "" ≠ "" →
      unitIds.contains
        ((rowField (splitQuoted (strTrim rawLine)) idx.unitIdIdx).getD "") = true →
      (rowField (splitQuoted (strTrim rawLine)) idx.startIdx).getD "" ≠ "" →
      isValidDate ((rowField (splitQuoted (strTrim rawLine)) idx.startIdx).getD "") = true →
      (rowField (splitQuoted (strTrim rawLine)) idx.endIdx).getD "" ≠ "" →
      isValidDate ((rowField (splitQuoted (strTrim rawLine)) idx.endIdx).getD "") = true →
      ((rowField (splitQuoted (strTrim rawLine)) idx.statusIdx).map asciiLower).bind
          statusOfString = some st →
      parseLine unitIds idx rowNum rawLine =
        some (Sum.inl
          { unitId := (rowField (splitQuoted (strTrim rawLine)) idx.unitIdIdx).getD ""
            startDate :=
              normalizeDate ((rowField (splitQuoted (strTrim rawLine)) idx.startIdx).getD "")
            endDate :=
              normalizeDate ((rowField (splitQuoted (strTrim rawLine)) idx.endIdx).getD "")
            status := st
            client := orUndefined (match idx.clientIdx with
              | some j => rowField (splitQuoted (strTrim rawLine)) j
              | none => none)
            notes := orUndefined (match idx.notesIdx with
              | some j => rowField (splitQuoted (strTrim rawLine)) j
              | none => none) })) := by
  refine ⟨processRows_filterMap unitIds idx, ?_, ?_, ?_, ?_, ?_, ?_⟩
  · intro rowNum rawLine hne hu
    simp only [parseLine, if_neg hne, hu, if_true, reduceIte]
  · intro rowNum rawLine hne hu hk
    simp only [parseLine, if_neg hne, if_neg hu, hk, Bool.not_false, if_true, reduceIte]
  · intro rowNum rawLine hne hu hk hbad
    have hcond : ((rowField (splitQuoted (strTrim rawLine)) idx.startIdx).getD "" = "" ||
        !isValidDate ((rowField (splitQuoted (strTrim rawLine)) idx.startIdx).getD "")) = true := by
      rcases hbad with hb | hb <;> simp [hb]
    simp only [parseLine, if_neg hne, if_neg hu, hk, Bool.not_true, Bool.false_eq_true,
      reduceIte, hcond, if_true]
  · intro rowNum rawLine hne hu hk hs1 hs2 hbad
    have hsok : ((rowField (splitQuoted (strTrim rawLine)) idx.startIdx).getD "" = "" ||
        !isValidDate ((rowField (splitQuoted (strTrim rawLine)) idx.startIdx).getD "")) = false := by
      simp [hs1, hs2]
    have hcond : ((rowField (splitQuoted (strTrim rawLine)) idx.endIdx).getD "" = "" ||
        !isValidDate ((rowField (splitQuoted (strTrim rawLine)) idx.endIdx).getD "")) = true := by
      rcases hbad with hb | hb <;> simp [hb]
    simp only [parseLine, if_neg hne, if_neg hu, hk, Bool.not_true, Bool.false_eq_true,
      reduceIte, hsok, hcond, if_true]
  · intro rowNum rawLine hne hu hk hs1 hs2 he1 he2 hstat
    have hsok : ((rowField (splitQuoted (strTrim rawLine)) idx.startIdx).getD "" = "" ||
        !isValidDate ((rowField (splitQuoted (strTrim rawLine)) idx.startIdx).getD "")) = false := by
      simp [hs1, hs2]
    have heok : ((rowField (splitQuoted (strTrim rawLine)) idx.endIdx).getD "" = "" ||
        !isValidDate ((rowField (splitQuoted (strTrim rawLine)) idx.endIdx).getD "")) = false := by
      simp [he1, he2]
    simp only [parseLine, if_neg hne, if_neg hu, hk, Bool.not_true, Bool.false_eq_true,
      reduceIte, hsok, heok, hstat]
  · intro rowNum rawLine st hne hu hk hs1 hs2 he1 he2 hstat
    have hsok : ((rowField (splitQuoted (strTrim rawLine)) idx.startIdx).getD "" = "" ||
        !isValidDate ((rowField (splitQuoted (strTrim rawLine)) idx.startIdx).getD "")) = false := by
      simp [hs1, hs2]
    have heok : ((rowField (splitQuoted (strTrim rawLine)) idx.endIdx).getD "" = "" ||
        !isValidDate ((rowField (splitQuoted (strTrim rawLine)) idx.endIdx).getD "")) = false := by
      simp [he1, he2]
    simp only [parseLine, if_neg hne, if_neg hu, hk, Bool.not_true, Bool.false_eq_true,
      reduceIte, hsok, heok, hstat]

/-- C7 witness: concrete lines exercising the chain --- an unknown
unit id stops at the unknown-id check with one error, and a fully
valid line yields the one validated row. -/
theorem parseCSV_row_validation_witness :
    strTrim "ZZ-99,2026-02-01,2026-02-28,sold" ≠ "" ∧
    parseLine ["AC-10D"] ⟨0, 1, 2, 3, none, none⟩ 2
      "ZZ-99,2026-02-01,2026-02-28,sold" =
      some (Sum.inr ⟨2, "Unknown unit ID: ZZ-99"⟩) ∧
    parseLine ["AC-10D"] ⟨0, 1, 2, 3, none, none⟩ 3
      "AC-10D,2026-02-01,2026-02-28,SOLD" =
      some (Sum.inl ⟨"AC-10D", "2026-02-01", "2026-02-28", sold, none, none⟩) := by
  refine ⟨by decide, ?_, ?_⟩
  · exact (parseCSV_row_validation ["AC-10D"] ⟨0, 1, 2, 3, none, none⟩).2.2.1 2
      "ZZ-99,2026-02-01,2026-02-28,sold" (by decide) (by decide) (by decide)
  · exact (parseCSV_row_validation ["AC-10D"] ⟨0, 1, 2, 3, none, none⟩).2.2.2.2.2.2 3
      "AC-10D,2026-02-01,2026-02-28,SOLD" sold (by decide) (by decide) (by decide)
      (by decide) (by decide) (by decide) (by decide) (by decide)

/-! ### Calendar arithmetic lemmas for the gap finder -/

theorem daysInMonth_bounds (y m : ℕ) :
    28 ≤ daysInMonth y m ∧ daysInMonth y m ≤ 31 := by
  unfold daysInMonth
  split
  · split <;> omega
  · split <;> omega

theorem succDate_valid {t : Ymd} (h : t.valid = true) :
    (succDate t).valid = true := by
  unfold Ymd.valid at h
  simp only [Bool.and_eq_true, decide_eq_true_eq] at h
  have hb := daysInMonth_bounds t.year t.month
  have hb2 := daysInMonth_bounds t.year (t.month + 1)
  have hb3 := daysInMonth_bounds (t.year + 1) 1
  unfold succDate
  split
  · simp only [Ymd.valid, Bool.and_eq_true, decide_eq_true_eq]
    omega
  · split
    · simp only [Ymd.valid, Bool.and_eq_true, decide_eq_true_eq]
      omega
    · simp only [Ymd.valid, Bool.and_eq_true, decide_eq_true_eq]
      omega

/-- Over-approximate day-of-year position used only to bound how far a
date can sit inside its year. -/
def doy (t : Ymd) : ℕ := (t.month - 1) * 31 + t.day

theorem succDate_cases {t : Ymd} (h : t.valid = true) :
    ((succDate t).year = t.year ∧ doy (succDate t) ≤ doy t + 4) ∨
    ((succDate t).year = t.year + 1 ∧ succDate t = ⟨t.year + 1, 1, 1⟩ ∧
      369 ≤ doy t) := by
  unfold Ymd.valid at h
  simp only [Bool.and_eq_true, decide_eq_true_eq] at h
  have hb := daysInMonth_bounds t.year t.month
  unfold succDate
  split
  · left
    refine ⟨rfl, ?_⟩
    simp only [doy]
    omega
  · split
    · left
      refine ⟨rfl, ?_⟩
      simp only [doy]
      omega
    · right
      refine ⟨rfl, rfl, ?_⟩
      simp only [doy]
      omega

theorem addDays_bounded_year :
    ∀ (k : ℕ), k ≤ 27 → ∀ (t : Ymd), t.valid = true →
      (addDays t k).valid = true ∧
      ((addDays t k).year = t.year ∨
        ((addDays t k).year = t.year + 1 ∧ doy (addDays t k) ≤ 4 * k)) := by
  intro k
  induction k with
  | zero => intro _ t ht; exact ⟨ht, Or.inl rfl⟩
  | succ k ih =>
    intro hk t ht
    obtain ⟨hval, hyear⟩ := ih (by omega) t ht
    have heq : addDays t (k + 1) = succDate (addDays t k) := rfl
    rw [heq]
    have hstep := succDate_cases hval
    refine ⟨succDate_valid hval, ?_⟩
    rcases hyear with hsame | ⟨hnext, hdoy⟩
    · rcases hstep with ⟨hy, -⟩ | ⟨hy, heq2, -⟩
      · exact Or.inl (by omega)
      · refine Or.inr ⟨by omega, ?_⟩
        rw [heq2]
        simp only [doy]
        omega
    · rcases hstep with ⟨hy, hd⟩ | ⟨-, -, hbig⟩
      · exact Or.inr ⟨by omega, by omega⟩
      · omega

theorem addDays_valid {t : Ymd} (h : t.valid = true) (k : ℕ) :
    (addDays t k).valid = true := by
  induction k with
  | zero => exact h
  | succ k ih => exact succDate_valid ih

/-- C6: with zero blocking periods (including the case of no registry
entry), the gap finder yields exactly the window from searchFrom to
searchFrom plus 27 days; and for a valid in-range search date both
window bounds are canonical ten-character YYYY-MM-DD strings (they
parse back through the canonical shape). -/
theorem gapFinder_no_blocking (a : Option UnitAvailability) (searchFrom : Ymd)
    (h : ∀ av, a = some av → ∀ p ∈ av.periods, isBlocking p = false) :
    getNextAvailablePeriod a searchFrom =
      some ⟨printYmd searchFrom, printYmd (addDays searchFrom 27)⟩ ∧
    (searchFrom.valid = true → searchFrom.year ≤ 9998 →
      (parseIsoShape (printYmd searchFrom).data).isSome = true ∧
      (parseIsoShape (printYmd (addDays searchFrom 27)).data).isSome = true) := by
  constructor
  · cases a with
    | none => rfl
    | some av =>
      rw [getNextAvailablePeriod_some]
      have hfil : av.periods.filter isBlocking = [] :=
        List.filter_eq_nil.mpr (fun p hp => by simp [h av rfl p hp])
      rw [hfil]
      split <;> rfl
  · intro hv hy
    constructor
    · have hb := valid_bounds hv
      rw [show (printYmd searchFrom).data = printYmdChars searchFrom from rfl,
        parseIsoShape_printYmd searchFrom (by omega) (by omega) (by omega)]
      rfl
    · obtain ⟨hval27, hyear27⟩ := addDays_bounded_year 27 (le_refl 27) searchFrom hv
      have hb := valid_bounds hval27
      have hy27 : (addDays searchFrom 27).year ≤ 9999 := by
        rcases hyear27 with hsame | ⟨hnext, -⟩ <;> omega
      rw [show (printYmd (addDays searchFrom 27)).data =
          printYmdChars (addDays searchFrom 27) from rfl,
        parseIsoShape_printYmd (addDays searchFrom 27) hy27 (by omega) (by omega)]
      rfl

/-- C6 witness: a registry with one pending period (not blocking) and
search start 2026-01-01 yields exactly the window 2026-01-01 to
2026-01-28 in canonical form. -/
theorem gapFinder_no_blocking_witness :
    getNextAvailablePeriod
      (some ⟨"U", [⟨"2026-01-05", "2026-01-20", pending, none, none⟩], "t"⟩)
      ⟨2026, 1, 1⟩ =
      some ⟨printYmd ⟨2026, 1, 1⟩, printYmd (addDays ⟨2026, 1, 1⟩ 27)⟩ ∧
    (parseIsoShape (printYmd (⟨2026, 1, 1⟩ : Ymd)).data).isSome = true ∧
    (parseIsoShape (printYmd (addDays ⟨2026, 1, 1⟩ 27)).data).isSome = true := by
  have h := gapFinder_no_blocking
    (some ⟨"U", [⟨"2026-01-05", "2026-01-20", pending, none, none⟩], "t"⟩)
    ⟨2026, 1, 1⟩ (by intro av hav p hp; cases hav; simp at hp; rw [hp]; rfl)
  exact ⟨h.1, h.2 (by decide) (by decide)⟩

/-! ### Key-order lemmas for the date successor -/

theorem succDate_key_gt {t : Ymd} (h : t.valid = true) :
    t.key < (succDate t).key := by
  unfold Ymd.valid at h
  simp only [Bool.and_eq_true, decide_eq_true_eq] at h
  have hb := daysInMonth_bounds t.year t.month
  unfold succDate
  split
  · simp only [Ymd.key]
    omega
  · split
    · simp only [Ymd.key]
      omega
    · simp only [Ymd.key]
      omega

theorem succDate_key_le {a b : Ymd} (ha : a.valid = true) (hb : b.valid = true)
    (h : a.key < b.key) : (succDate a).key ≤ b.key := by
  unfold Ymd.valid at ha hb
  simp only [Bool.and_eq_true, decide_eq_true_eq] at ha hb
  have hba := daysInMonth_bounds a.year a.month
  have hbb := daysInMonth_bounds b.year b.month
  unfold Ymd.key at h ⊢
  unfold succDate
  split
  · simp only [Ymd.key]
    omega
  · by_cases hy2 : b.year = a.year
    · by_cases hm2 : b.month = a.month
      · have hdim : b.day ≤ daysInMonth a.year a.month := by
          rw [← hy2, ← hm2]
          exact hb.2
        split <;> simp only [Ymd.key] <;> omega
      · split <;> simp only [Ymd.key] <;> omega
    · split <;> simp only [Ymd.key] <;> omega

theorem key_lt_succDate_iff {d e : Ymd} (hd : d.valid = true)
    (he : e.valid = true) : d.key < (succDate e).key ↔ d.key ≤ e.key := by
  constructor
  · intro h
    by_contra hgt
    have h2 : e.key < d.key := by omega
    have := succDate_key_le he hd h2
    omega
  · intro h
    have := succDate_key_gt he
    omega

theorem key_inj {a b : Ymd} (ha : a.valid = true) (hb : b.valid = true)
    (h : a.key = b.key) : a = b := by
  unfold Ymd.valid at ha hb
  simp only [Bool.and_eq_true, decide_eq_true_eq] at ha hb
  have hba := daysInMonth_bounds a.year a.month
  have hbb := daysInMonth_bounds b.year b.month
  unfold Ymd.key at h
  cases a with
  | mk ya ma da =>
    cases b with
    | mk yb mb db =>
      simp only [] at *
      have hy : ya = yb := by omega
      have hm : ma = mb := by omega
      have hd : da = db := by omega
      rw [hy, hm, hd]

theorem succDate_key_mono {a b : Ymd} (ha : a.valid = true)
    (hb : b.valid = true) (h : a.key ≤ b.key) :
    (succDate a).key ≤ (succDate b).key := by
  rcases Nat.lt_or_ge a.key b.key with hlt | hge
  · have h1 := succDate_key_le ha hb hlt
    have h2 := succDate_key_gt hb
    omega
  · have heq : a.key = b.key := by omega
    rw [key_inj ha hb heq]

theorem key_le_addDays {t : Ymd} (h : t.valid = true) (k : ℕ) :
    t.key ≤ (addDays t k).key := by
  induction k with
  | zero => exact le_refl _
  | succ k ih =>
    have hv := addDays_valid h k
    have := succDate_key_gt hv
    show t.key ≤ (succDate (addDays t k)).key
    omega

theorem addDays_key_mono {a b : Ymd} (ha : a.valid = true)
    (hb : b.valid = true) (k : ℕ) (h : a.key ≤ b.key) :
    (addDays a k).key ≤ (addDays b k).key := by
  induction k with
  | zero => exact h
  | succ k ih =>
    show (succDate (addDays a k)).key ≤ (succDate (addDays b k)).key
    exact succDate_key_mono (addDays_valid ha k) (addDays_valid hb k) ih

/-! ### The code-unit order on canonical date strings -/

theorem chListLe_total : ∀ a b : List Char,
    chListLe a b = true ∨ chListLe b a = true := by
  intro a
  induction a with
  | nil => intro b; left; rfl
  | cons x xs ih =>
    intro b
    cases b with
    | nil => right; rfl
    | cons y ys =>
      show (x.toNat < y.toNat || (x.toNat == y.toNat && chListLe xs ys)) = true ∨
        (y.toNat < x.toNat || (y.toNat == x.toNat && chListLe ys xs)) = true
      rcases Nat.lt_trichotomy x.toNat y.toNat with h | h | h
      · left; simp [h]
      · rcases ih ys with h2 | h2
        · left; simp [h, h2]
        · right; simp [h.symm, h2]
      · right; simp [h]

theorem chListLe_trans : ∀ a b c : List Char,
    chListLe a b = true → chListLe b c = true → chListLe a c = true := by
  intro a
  induction a with
  | nil => intro b c _ _; rfl
  | cons x xs ih =>
    intro b c hab hbc
    cases b with
    | nil => exact absurd hab (by simp [chListLe])
    | cons y ys =>
      cases c with
      | nil => exact absurd hbc (by simp [chListLe])
      | cons z zs =>
        have hab2 : x.toNat < y.toNat ∨ (x.toNat = y.toNat ∧ chListLe xs ys = true) := by
          have : (x.toNat < y.toNat || (x.toNat == y.toNat && chListLe xs ys)) = true := hab
          simpa [Bool.or_eq_true, Bool.and_eq_true, decide_eq_true_eq, beq_iff_eq]
            using this
        have hbc2 : y.toNat < z.toNat ∨ (y.toNat = z.toNat ∧ chListLe ys zs = true) := by
          have : (y.toNat < z.toNat || (y.toNat == z.toNat && chListLe ys zs)) = true := hbc
          simpa [Bool.or_eq_true, Bool.and_eq_true, decide_eq_true_eq, beq_iff_eq]
            using this
        show (x.toNat < z.toNat || (x.toNat == z.toNat && chListLe xs zs)) = true
        simp only [Bool.or_eq_true, Bool.and_eq_true, decide_eq_true_eq, beq_iff_eq]
        rcases hab2 with h1 | ⟨h1, h1r⟩
        · rcases hbc2 with h2 | ⟨h2, -⟩
          · left; omega
          · left; omega
        · rcases hbc2 with h2 | ⟨h2, h2r⟩
          · left; omega
          · right; exact ⟨by omega, ih ys zs h1r h2r⟩

theorem chListLe_cons_same (c : Char) (r1 r2 : List Char) :
    chListLe (c :: r1) (c :: r2) = chListLe r1 r2 := by
  show (c.toNat < c.toNat || (c.toNat == c.toNat && chListLe r1 r2)) = chListLe r1 r2
  simp

theorem digit_toNat_lt_iff :
    ∀ a, a < 10 → ∀ b, b < 10 →
      (((digit a).toNat < (digit b).toNat) ↔ a < b) ∧
      (((digit a).toNat = (digit b).toNat) ↔ a = b) := by decide

theorem chListLe_pad2_iff (x y : ℕ) (r1 r2 : List Char) :
    chListLe (pad2 x ++ r1) (pad2 y ++ r2) = true ↔
      (x % 100 < y % 100 ∨ (x % 100 = y % 100 ∧ chListLe r1 r2 = true)) := by
  have h1 := digit_toNat_lt_iff (x / 10 % 10) (Nat.mod_lt _ (by norm_num))
    (y / 10 % 10) (Nat.mod_lt _ (by norm_num))
  have h2 := digit_toNat_lt_iff (x % 10) (Nat.mod_lt _ (by norm_num))
    (y % 10) (Nat.mod_lt _ (by norm_num))
  show (((digit (x / 10 % 10)).toNat < (digit (y / 10 % 10)).toNat ||
      ((digit (x / 10 % 10)).toNat == (digit (y / 10 % 10)).toNat &&
        ((digit (x % 10)).toNat < (digit (y % 10)).toNat ||
          ((digit (x % 10)).toNat == (digit (y % 10)).toNat &&
            chListLe r1 r2)))) = true) ↔ _
  simp only [Bool.or_eq_true, Bool.and_eq_true, decide_eq_true_eq, beq_iff_eq]
  rw [h1.1, h1.2, h2.1, h2.2]
  by_cases hR : chListLe r1 r2 = true <;> simp [hR] <;> omega

theorem chListLe_pad2_iff_nil (x y : ℕ) :
    chListLe (pad2 x) (pad2 y) = true ↔
      (x % 100 < y % 100 ∨ x % 100 = y % 100) := by
  have h := chListLe_pad2_iff x y [] []
  rw [List.append_nil, List.append_nil] at h
  rw [h]
  have hnil : chListLe [] [] = true := rfl
  simp [hnil]

theorem pad4_eq_pad2_append (x : ℕ) : pad4 x = pad2 (x / 100) ++ pad2 x := by
  unfold pad4 pad2
  have h1 : x / 100 / 10 = x / 1000 := by
    rw [Nat.div_div_eq_div_mul]
  have h2 : x / 100 % 10 = x / 100 % 10 := rfl
  simp [h1]

/-- On canonical renderings of valid in-range dates, the code-unit
string order agrees with chronological (key) order. -/
theorem strLeB_printYmd_iff {t u : Ymd} (hvt : t.valid = true)
    (hvu : u.valid = true) (hyt : t.year ≤ 9999) (hyu : u.year ≤ 9999) :
    (strLeB (printYmd t) (printYmd u) = true) ↔ t.key ≤ u.key := by
  obtain ⟨hm1t, hm2t, hd1t, hd2t⟩ := valid_bounds hvt
  obtain ⟨hm1u, hm2u, hd1u, hd2u⟩ := valid_bounds hvu
  have hshape : ∀ w : Ymd, printYmdChars w =
      pad2 (w.year / 100) ++ (pad2 w.year ++
        ('-' :: (pad2 w.month ++ '-' :: pad2 w.day))) := by
    intro w
    unfold printYmdChars
    rw [pad4_eq_pad2_append]
    simp [List.append_assoc]
  have hdata : ∀ w : Ymd, (printYmd w).data = printYmdChars w := fun w => rfl
  unfold strLeB
  rw [hdata, hdata, hshape, hshape]
  rw [chListLe_pad2_iff, chListLe_pad2_iff, chListLe_cons_same,
    chListLe_pad2_iff, chListLe_cons_same, chListLe_pad2_iff_nil]
  unfold Ymd.key
  omega

/-! ### Canonical period hypotheses for the gap finder -/

/-- Is the text the canonical rendering of a valid calendar date. -/
def goodDateStr (s : String) : Bool :=
  match parseIsoShape s.data with
  | some t => t.valid && (s == printYmd t)
  | none => false

/-- A blocking-period invariant: both dates canonical and in order. -/
def goodPeriodB (p : AvailabilityPeriod) : Bool :=
  goodDateStr p.startDate && goodDateStr p.endDate &&
    strLeB p.startDate p.endDate

theorem parseIsoShape_year {s : String} {t : Ymd}
    (h : parseIsoShape s.data = some t) : t.year ≤ 9999 := by
  unfold parseIsoShape at h
  split at h
  case h_2 => exact absurd h (by simp)
  case h_1 y1 y2 y3 y4 h1 m1 m2 h2 d1 d2 heq1 =>
    split at h
    case isFalse => exact absurd h (by simp)
    case isTrue hcond =>
      simp only [Bool.and_eq_true, decide_eq_true_eq] at hcond
      obtain ⟨⟨-, -⟩, ⟨⟨⟨⟨⟨⟨hy1, hy2⟩, hy3⟩, hy4⟩, -⟩, -⟩, -⟩, -⟩ := hcond
      have b1 := dv_le_nine hy1
      have b2 := dv_le_nine hy2
      have b3 := dv_le_nine hy3
      have b4 := dv_le_nine hy4
      have ht : t = ⟨dv y1 * 1000 + dv y2 * 100 + dv y3 * 10 + dv y4,
          dv m1 * 10 + dv m2, dv d1 * 10 + dv d2⟩ := by
        simpa using h.symm
      rw [ht]
      show dv y1 * 1000 + dv y2 * 100 + dv y3 * 10 + dv y4 ≤ 9999
      omega

theorem goodDateStr_spec {s : String} (h : goodDateStr s = true) :
    ∃ t : Ymd, jsParseDate s = some t ∧ s = printYmd t ∧
      t.valid = true ∧ t.year ≤ 9999 := by
  unfold goodDateStr at h
  split at h
  case h_2 => exact absurd h (by simp)
  case h_1 t heq =>
    simp only [Bool.and_eq_true, beq_iff_eq] at h
    refine ⟨t, ?_, h.2, h.1, parseIsoShape_year heq⟩
    unfold jsParseDate
    rw [show (parseIsoShape s.data).orElse (fun _ => parseSlashShape s.data) =
      some t by rw [heq]; rfl]
    simp [h.1]

/-- The period list a registry lookup presents to the resolver. -/
def periodsOf (a : Option UnitAvailability) : List AvailabilityPeriod :=
  match a with
  | none => []
  | some av => av.periods

/-- A 28-day window starting at d overlaps a blocking period of the
list under the inclusive interval test on parsed dates. -/
def blockedIn (B : List AvailabilityPeriod) (d : Ymd) : Prop :=
  ∃ p ∈ B, isBlocking p = true ∧
    ∃ ts te : Ymd, jsParseDate p.startDate = some ts ∧
      jsParseDate p.endDate = some te ∧
      ts.key ≤ (addDays d 27).key ∧ d.key ≤ te.key

theorem gapScan_cons (p : AvailabilityPeriod)
    (rest : List AvailabilityPeriod) (c : Ymd) :
    gapScan (p :: rest) c =
      if ymdLtOpt c (jsParseDate p.startDate) &&
          ymdLtOpt (addDays c 27) (jsParseDate p.startDate) then
        ⟨printYmd c, printYmd (addDays c 27)⟩
      else
        gapScan rest
          (if ymdLeOpt c (jsParseDate p.endDate) then
            match jsParseDate p.endDate with
            | some e => succDate e
            | none => c
          else c) := rfl

/-- The scan over a start-sorted list of canonical blocking periods
returns the earliest cursor at or after c whose 28-day window clears
every period of the list, and every skipped day is blocked. -/
theorem gapScan_spec (B : List AvailabilityPeriod) (searchFrom : Ymd) :
    ∀ (L : List AvailabilityPeriod) (c : Ymd),
      (∀ p ∈ L, p ∈ B ∧ isBlocking p = true ∧ goodPeriodB p = true) →
      L.Pairwise (fun p q => strLeB p.startDate q.startDate = true) →
      c.valid = true → searchFrom.key ≤ c.key →
      (∀ d : Ymd, d.valid = true → searchFrom.key ≤ d.key → d.key < c.key →
        blockedIn B d) →
      ∃ r : Ymd, gapScan L c = ⟨printYmd r, printYmd (addDays r 27)⟩ ∧
        r.valid = true ∧ c.key ≤ r.key ∧
        (∀ p ∈ L, ∀ ts te : Ymd, jsParseDate p.startDate = some ts →
          jsParseDate p.endDate = some te →
          ¬ (ts.key ≤ (addDays r 27).key ∧ r.key ≤ te.key)) ∧
        (∀ d : Ymd, d.valid = true → searchFrom.key ≤ d.key → d.key < r.key →
          blockedIn B d) := by
  intro L
  induction L with
  | nil =>
    intro c _ _ hc hcge hblocked
    exact ⟨c, rfl, hc, le_refl _, fun p hp => absurd hp (List.not_mem_nil p),
      hblocked⟩
  | cons p rest ih =>
    intro c hmem hsorted hc hcge hblocked
    obtain ⟨hpB, hpblock, hpgood⟩ := hmem p (List.mem_cons_self p rest)
    have hgood2 : goodDateStr p.startDate = true ∧ goodDateStr p.endDate = true ∧
        strLeB p.startDate p.endDate = true := by
      have := hpgood
      unfold goodPeriodB at this
      simp only [Bool.and_eq_true] at this
      exact ⟨this.1.1, this.1.2, this.2⟩
    obtain ⟨ts, hts, htseq, htsv, htsy⟩ := goodDateStr_spec hgood2.1
    obtain ⟨te, hte, hteeq, htev, htey⟩ := goodDateStr_spec hgood2.2.1
    have hste : ts.key ≤ te.key := by
      have h := hgood2.2.2
      rw [htseq, hteeq] at h
      exact (strLeB_printYmd_iff htsv htev htsy htey).mp h
    rw [gapScan_cons, hts, hte]
    by_cases hret : (ymdLtOpt c (some ts) &&
        ymdLtOpt (addDays c 27) (some ts)) = true
    · rw [if_pos hret]
      have hret2 : c.key < ts.key ∧ (addDays c 27).key < ts.key := by
        have := hret
        unfold ymdLtOpt at this
        simp only [Bool.and_eq_true, decide_eq_true_eq] at this
        exact this
      refine ⟨c, rfl, hc, le_refl _, ?_, hblocked⟩
      intro q hq tqs tqe hqs hqe hover
      rcases List.mem_cons.mp hq with rfl | hqrest
      · rw [hts] at hqs
        have hpick : ts = tqs := by simpa using hqs
        rw [← hpick] at hover
        omega
      · obtain ⟨-, -, hqgood⟩ := hmem q (List.mem_cons_of_mem p hqrest)
        have hqgood2 : goodDateStr q.startDate = true := by
          have := hqgood
          unfold goodPeriodB at this
          simp only [Bool.and_eq_true] at this
          exact this.1.1
        obtain ⟨tqs2, hqs2, hqseq, hqsv, hqsy⟩ := goodDateStr_spec hqgood2
        have htq : tqs2 = tqs := by
          rw [hqs2] at hqs
          simpa using hqs
        have hsorted2 : strLeB p.startDate q.startDate = true :=
          (List.pairwise_cons.mp hsorted).1 q hqrest
        rw [htseq, hqseq] at hsorted2
        have hkey : ts.key ≤ tqs2.key :=
          (strLeB_printYmd_iff htsv hqsv htsy hqsy).mp hsorted2
        rw [htq] at hkey
        omega
    · rw [if_neg hret]
      have hnret : ¬ (c.key < ts.key ∧ (addDays c 27).key < ts.key) := by
        intro hcon
        apply hret
        unfold ymdLtOpt
        simp only [Bool.and_eq_true, decide_eq_true_eq]
        exact hcon
      have hsorted_rest : rest.Pairwise
          (fun p q => strLeB p.startDate q.startDate = true) :=
        (List.pairwise_cons.mp hsorted).2
      have hmem_rest : ∀ q ∈ rest, q ∈ B ∧ isBlocking q = true ∧
          goodPeriodB q = true :=
        fun q hq => hmem q (List.mem_cons_of_mem p hq)
      by_cases hle : ymdLeOpt c (some te) = true
      · rw [if_pos hle]
        have hle2 : c.key ≤ te.key := by
          have := hle
          unfold ymdLeOpt at this
          simpa using this
        have hsv : (succDate te).valid = true := succDate_valid htev
        have hskey := succDate_key_gt htev
        have hblocked2 : ∀ d : Ymd, d.valid = true → searchFrom.key ≤ d.key →
            d.key < (succDate te).key → blockedIn B d := by
          intro d hd hdge hdlt
          have hdte : d.key ≤ te.key := (key_lt_succDate_iff hd htev).mp hdlt
          by_cases hdc : d.key < c.key
          · exact hblocked d hd hdge hdc
          · refine ⟨p, hpB, hpblock, ts, te, hts, hte, ?_, hdte⟩
            by_cases hdts : ts.key ≤ d.key
            · have := key_le_addDays hd 27
              omega
            · have hcts : c.key < ts.key := by omega
              have hadd : (addDays c 27).key ≤ (addDays d 27).key :=
                addDays_key_mono hc hd 27 (by omega)
              omega
        obtain ⟨r, hrscan, hrv, hrge, hrnov, hrblocked⟩ :=
          ih (succDate te) hmem_rest hsorted_rest hsv (by omega) hblocked2
        refine ⟨r, hrscan, hrv, by omega, ?_, hrblocked⟩
        intro q hq tqs tqe hqs hqe hover
        rcases List.mem_cons.mp hq with rfl | hqrest
        · rw [hte] at hqe
          have hpick : te = tqe := by simpa using hqe
          rw [← hpick] at hover
          omega
        · exact hrnov q hqrest tqs tqe hqs hqe hover
      · rw [if_neg hle]
        have hnle : te.key < c.key := by
          have := hle
          unfold ymdLeOpt at this
          simp only [decide_eq_true_eq] at this
          omega
        obtain ⟨r, hrscan, hrv, hrge, hrnov, hrblocked⟩ :=
          ih c hmem_rest hsorted_rest hc hcge hblocked
        refine ⟨r, hrscan, hrv, hrge, ?_, hrblocked⟩
        intro q hq tqs tqe hqs hqe hover
        rcases List.mem_cons.mp hq with rfl | hqrest
        · rw [hte] at hqe
          have hpick : te = tqe := by simpa using hqe
          rw [← hpick] at hover
          omega
        · exact hrnov q hqrest tqs tqe hqs hqe hover

/-! ### Sortedness of the start-date insertion sort -/

theorem mem_insertByStart (x a : AvailabilityPeriod) :
    ∀ l : List AvailabilityPeriod, a ∈ insertByStart x l ↔ a = x ∨ a ∈ l := by
  intro l
  induction l with
  | nil => simp [insertByStart]
  | cons y ys ih =>
    unfold insertByStart
    split
    · simp only [List.mem_cons, ih]
      tauto
    · simp only [List.mem_cons]

theorem mem_sortByStart (a : AvailabilityPeriod) :
    ∀ l : List AvailabilityPeriod, a ∈ sortByStart l ↔ a ∈ l := by
  intro l
  induction l with
  | nil => simp [sortByStart]
  | cons y ys ih =>
    unfold sortByStart
    rw [mem_insertByStart]
    simp only [List.mem_cons, ih]

theorem pairwise_insertByStart (x : AvailabilityPeriod) :
    ∀ l : List AvailabilityPeriod,
      l.Pairwise (fun p q => strLeB p.startDate q.startDate = true) →
      (insertByStart x l).Pairwise
        (fun p q => strLeB p.startDate q.startDate = true) := by
  intro l
  induction l with
  | nil => intro _; simp [insertByStart]
  | cons y ys ih =>
    intro h
    obtain ⟨hy, hys⟩ := List.pairwise_cons.mp h
    unfold insertByStart
    split
    · rename_i hle
      refine List.pairwise_cons.mpr ⟨?_, ih hys⟩
      intro z hz
      rcases (mem_insertByStart x z ys).mp hz with rfl | hzys
      · exact hle
      · exact hy z hzys
    · rename_i hnle
      have hxy : strLeB x.startDate y.startDate = true := by
        rcases chListLe_total x.startDate.data y.startDate.data with h2 | h2
        · exact h2
        · exact absurd h2 hnle
      refine List.pairwise_cons.mpr ⟨?_, h⟩
      intro z hz
      rcases List.mem_cons.mp hz with rfl | hzys
      · exact hxy
      · exact chListLe_trans _ _ _ hxy (hy z hzys)

theorem pairwise_sortByStart :
    ∀ l : List AvailabilityPeriod,
      (sortByStart l).Pairwise
        (fun p q => strLeB p.startDate q.startDate = true) := by
  intro l
  induction l with
  | nil => simp [sortByStart]
  | cons y ys ih => exact pairwise_insertByStart y (sortByStart ys) ih

/-! ### Claim C4: the gap finder returns the earliest clear window -/

/-- C4: for a registry whose blocking periods carry canonical, ordered
dates, the gap finder returns the 28-day window at the earliest valid
date c at or after searchFrom such that no period with status sold or
hold overlaps the window [c, c + 27 days] under the inclusive test;
every earlier candidate day at or after searchFrom is blocked by some
sold or hold period. -/
theorem gapFinder_earliest (a : Option UnitAvailability) (searchFrom : Ymd)
    (hsf : searchFrom.valid = true)
    (hgood : ∀ p ∈ periodsOf a, isBlocking p = true → goodPeriodB p = true) :
    ∃ c : Ymd, getNextAvailablePeriod a searchFrom =
        some ⟨printYmd c, printYmd (addDays c 27)⟩ ∧
      c.valid = true ∧ searchFrom.key ≤ c.key ∧
      ¬ blockedIn (periodsOf a) c ∧
      ∀ d : Ymd, d.valid = true → searchFrom.key ≤ d.key → d.key < c.key →
        blockedIn (periodsOf a) d := by
  cases a with
  | none =>
    refine ⟨searchFrom, rfl, hsf, le_refl _, ?_, ?_⟩
    · rintro ⟨p, hp, -⟩
      exact absurd hp (List.not_mem_nil p)
    · intro d _ h1 h2
      omega
  | some av =>
    rw [getNextAvailablePeriod_some]
    by_cases hlen : av.periods.length = 0
    · rw [if_pos hlen]
      have hemp : av.periods = [] := List.length_eq_zero.mp hlen
      refine ⟨searchFrom, rfl, hsf, le_refl _, ?_, ?_⟩
      · rintro ⟨p, hp, -⟩
        rw [show periodsOf (some av) = av.periods from rfl, hemp] at hp
        exact absurd hp (List.not_mem_nil p)
      · intro d _ h1 h2
        omega
    · rw [if_neg hlen]
      have hmemL : ∀ p ∈ sortByStart (av.periods.filter isBlocking),
          p ∈ av.periods ∧ isBlocking p = true ∧ goodPeriodB p = true := by
        intro p hp
        have hp2 : p ∈ av.periods.filter isBlocking :=
          (mem_sortByStart p _).mp hp
        have hp3 := List.mem_filter.mp hp2
        exact ⟨hp3.1, hp3.2, hgood p hp3.1 hp3.2⟩
      obtain ⟨r, hrscan, hrv, hrge, hrnov, hrblocked⟩ :=
        gapScan_spec av.periods searchFrom
          (sortByStart (av.periods.filter isBlocking)) searchFrom
          hmemL (pairwise_sortByStart _) hsf (le_refl _)
          (fun d _ h1 h2 => absurd h1 (by omega))
      refine ⟨r, by rw [hrscan], hrv, hrge, ?_, hrblocked⟩
      rintro ⟨p, hp, hblock, ts, te, hts, hte, hover1, hover2⟩
      have hpL : p ∈ sortByStart (av.periods.filter isBlocking) := by
        rw [mem_sortByStart]
        exact List.mem_filter.mpr ⟨hp, hblock⟩
      exact hrnov p hpL ts te hts hte ⟨hover1, hover2⟩

/-- C4 witness: one blocking sold period 2026-01-01 to 2026-01-28 and
search start 2026-01-01; the earliest clear window exists as the
theorem states, and the returned window is concretely 2026-01-29 to
2026-02-25, starting no earlier than 2026-01-29. -/
theorem gapFinder_earliest_witness :
    (⟨2026, 1, 1⟩ : Ymd).valid = true ∧
    (∀ p ∈ periodsOf (some ⟨"U",
        [⟨"2026-01-01", "2026-01-28", sold, none, none⟩], "t"⟩),
      isBlocking p = true → goodPeriodB p = true) ∧
    (∃ c : Ymd, getNextAvailablePeriod
        (some ⟨"U", [⟨"2026-01-01", "2026-01-28", sold, none, none⟩], "t"⟩)
        ⟨2026, 1, 1⟩ = some ⟨printYmd c, printYmd (addDays c 27)⟩ ∧
      c.valid = true ∧ (⟨2026, 1, 1⟩ : Ymd).key ≤ c.key ∧
      ¬ blockedIn (periodsOf (some ⟨"U",
          [⟨"2026-01-01", "2026-01-28", sold, none, none⟩], "t"⟩)) c ∧
      ∀ d : Ymd, d.valid = true → (⟨2026, 1, 1⟩ : Ymd).key ≤ d.key →
        d.key < c.key →
        blockedIn (periodsOf (some ⟨"U",
          [⟨"2026-01-01", "2026-01-28", sold, none, none⟩], "t"⟩)) d) ∧
    getNextAvailablePeriod
      (some ⟨"U", [⟨"2026-01-01", "2026-01-28", sold, none, none⟩], "t"⟩)
      ⟨2026, 1, 1⟩ = some ⟨"2026-01-29", "2026-02-25"⟩ := by
  refine ⟨by decide, by decide, ?_, by decide⟩
  exact gapFinder_earliest
    (some ⟨"U", [⟨"2026-01-01", "2026-01-28", sold, none, none⟩], "t"⟩)
    ⟨2026, 1, 1⟩ (by decide) (by decide)

end Capitol
